import Mathlib

/-!
Shallow embedding of the lightquant core (order lifecycle, account ledger,
risk-rule engine, backtest fill simulation and replay loop) and proofs of
the specification claims about it.

Conventions of the embedding:
* Python floats are modelled as exact rationals (`ℚ`); the claims are about
  exact arithmetic relations between the quantities involved.
* Methods that `raise` are modelled as functions into `Except String α`;
  in the source every guard that raises precedes every mutation, so a
  raising call leaves the object unchanged, which the pure embedding
  reflects by returning only an error value.
* Python `dict`s (insertion ordered) are modelled as association lists:
  lookup finds the first matching key, assignment replaces in place or
  appends a fresh key at the end.
* Wall-clock timestamps (`datetime.utcnow()`) are irrelevant to every claim
  and are abstracted to a constant marker.
-/

namespace LightQuant

/-! ### Association lists (Python dict semantics) -/

/-- Lookup in an insertion-ordered map, as for a Python `dict`. -/
def alookup {α : Type} : List (String × α) → String → Option α
  | [], _ => none
  | (k', v') :: rest, k => if k' = k then some v' else alookup rest k

/-- Assignment `m[k] = v` in an insertion-ordered map: replace the existing
entry in place, or append a new entry at the end. -/
def aset {α : Type} : List (String × α) → String → α → List (String × α)
  | [], k, v => [(k, v)]
  | (k', v') :: rest, k, v =>
      if k' = k then (k, v) :: rest else (k', v') :: aset rest k v

theorem alookup_aset_self {α : Type} (m : List (String × α)) (k : String) (v : α) :
    alookup (aset m k v) k = some v := by
  induction m with
  | nil => simp [aset, alookup]
  | cons hd tl ih =>
    obtain ⟨k', v'⟩ := hd
    by_cases h : k' = k
    · simp [aset, alookup, h]
    · simp [aset, alookup, h, ih]

theorem alookup_aset_ne {α : Type} (m : List (String × α)) (k k' : String) (v : α)
    (h : k' ≠ k) : alookup (aset m k v) k' = alookup m k' := by
  induction m with
  | nil => simp [aset, alookup, Ne.symm h]
  | cons hd tl ih =>
    obtain ⟨k₀, v₀⟩ := hd
    by_cases h0 : k₀ = k
    · subst h0
      simp [aset, alookup, Ne.symm h]
    · by_cases h1 : k₀ = k'
      · subst h1
        simp [aset, alookup, h0]
      · simp [aset, alookup, h0, h1, ih]

/-! ### Order model (`lightquant/domain/models/order.py`) -/

/-- `OrderType` enum. -/
inductive OrderType
  | market
  | limit
  | stop
  | stopLimit
  | trailingStop
  deriving DecidableEq

/-- `OrderStatus` enum.  `PARTIALLY_FILLED` is rendered `partFilled`. -/
inductive OrderStatus
  | pending
  | opened
  | filled
  | partFilled
  | canceled
  | rejected
  | expired
  deriving DecidableEq

/-- `OrderSide` enum. -/
inductive OrderSide
  | buy
  | sell
  deriving DecidableEq

/-- `OrderParams` value object (exchange-specific `params` dict and leverage
are irrelevant to the claims and omitted). -/
structure OrderParams where
  symbol : String
  orderType : OrderType
  side : OrderSide
  amount : ℚ
  price : Option ℚ
  stopPrice : Option ℚ
  deriving DecidableEq

/-- A fill record appended by `Order.fill` (`lightquant/domain/models/trade.py`);
only the fields the claims mention are kept. -/
structure Trade where
  tradeId : String
  amount : ℚ
  price : ℚ
  deriving DecidableEq

/-- Mutable state of the `Order` aggregate root. -/
structure Order where
  params : OrderParams
  strategyId : String
  exchangeId : String
  status : OrderStatus
  filledAmount : ℚ
  remainingAmount : ℚ
  averagePrice : Option ℚ
  exchangeOrderId : Option String
  closedAt : Option ℕ
  trades : List Trade
  deriving DecidableEq

/-- `Order.__init__`. -/
def mkOrder (params : OrderParams) (strategyId exchangeId : String) : Order where
  params := params
  strategyId := strategyId
  exchangeId := exchangeId
  status := OrderStatus.pending
  filledAmount := 0
  remainingAmount := params.amount
  averagePrice := none
  exchangeOrderId := none
  closedAt := none
  trades := []

/-- `Order.is_closed`: FILLED, CANCELED, REJECTED and EXPIRED are terminal. -/
def Order.isClosed (o : Order) : Bool :=
  o.status = OrderStatus.filled ∨ o.status = OrderStatus.canceled ∨
    o.status = OrderStatus.rejected ∨ o.status = OrderStatus.expired

/-- `Order.submit`: PENDING → OPEN, recording the exchange order id. -/
def Order.submit (o : Order) (exchangeOrderId : String) : Except String Order :=
  if o.status ≠ OrderStatus.pending then
    Except.error "Cannot submit order with this status"
  else
    Except.ok { o with exchangeOrderId := some exchangeOrderId,
                       status := OrderStatus.opened }

/-- `Order.fill`: guards (closed order, non-positive amount, amount beyond
remaining) raise before any mutation; then filled/remaining/average price are
updated, a trade record is appended and the status moves to FILLED (with a
close timestamp) or PARTIALLY_FILLED. -/
def Order.fill (o : Order) (amount price : ℚ) (tradeId : String) :
    Except String Order :=
  if o.isClosed then
    Except.error "Cannot fill a closed order"
  else if amount ≤ 0 then
    Except.error "Fill amount must be positive"
  else if amount > o.remainingAmount then
    Except.error "Fill amount exceeds remaining amount"
  else
    let filled := o.filledAmount + amount
    let remaining := o.remainingAmount - amount
    let avg : ℚ :=
      match o.averagePrice with
      | none => price
      | some a => (a * (filled - amount) + price * amount) / filled
    let trades := o.trades ++ [⟨tradeId, amount, price⟩]
    if filled ≥ o.params.amount then
      Except.ok { o with status := OrderStatus.filled,
                         filledAmount := filled,
                         remainingAmount := remaining,
                         averagePrice := some avg,
                         trades := trades,
                         closedAt := some 0 }
    else
      Except.ok { o with status := OrderStatus.partFilled,
                         filledAmount := filled,
                         remainingAmount := remaining,
                         averagePrice := some avg,
                         trades := trades }

/-- `Order.cancel`: any non-terminal state → CANCELED. -/
def Order.cancel (o : Order) : Except String Order :=
  if o.isClosed then
    Except.error "Cannot cancel a closed order"
  else
    Except.ok { o with status := OrderStatus.canceled, closedAt := some 0 }

/-- `Order.reject`: PENDING or OPEN → REJECTED. -/
def Order.reject (o : Order) (_reason : String) : Except String Order :=
  if o.status ≠ OrderStatus.pending ∧ o.status ≠ OrderStatus.opened then
    Except.error "Cannot reject order with this status"
  else
    Except.ok { o with status := OrderStatus.rejected, closedAt := some 0 }

/-- `Order.expire`: any non-terminal state → EXPIRED. -/
def Order.expire (o : Order) : Except String Order :=
  if o.isClosed then
    Except.error "Cannot expire a closed order"
  else
    Except.ok { o with status := OrderStatus.expired, closedAt := some 0 }

/-- One lifecycle operation on an order. -/
inductive OrderOp
  | submit (exchangeOrderId : String)
  | fill (amount price : ℚ) (tradeId : String)
  | cancel
  | reject (reason : String)
  | expire
  deriving DecidableEq

/-- Dispatch one lifecycle operation. -/
def Order.step (o : Order) : OrderOp → Except String Order
  | OrderOp.submit eid => o.submit eid
  | OrderOp.fill a p tid => o.fill a p tid
  | OrderOp.cancel => o.cancel
  | OrderOp.reject r => o.reject r
  | OrderOp.expire => o.expire

/-- Run a sequence of lifecycle operations; the whole run fails as soon as
one operation raises. -/
def runOps : Order → List OrderOp → Except String Order
  | o, [] => Except.ok o
  | o, op :: ops =>
    match o.step op with
    | Except.ok o' => runOps o' ops
    | Except.error e => Except.error e

/-! #### Order lifecycle invariants -/

/-- A successful step never changes the immutable request parameters. -/
theorem Order.step_params {o o' : Order} {op : OrderOp}
    (h : o.step op = Except.ok o') : o'.params = o.params := by
  cases op <;>
    simp only [Order.step, Order.submit, Order.fill, Order.cancel, Order.reject,
      Order.expire] at h <;>
    split_ifs at h <;>
    first
      | exact Except.noConfusion h
      | (injection h with h; subst h; rfl)

/-- A successful step preserves `filled + remaining = params.amount`. -/
theorem Order.step_amount {o o' : Order} {op : OrderOp}
    (h : o.step op = Except.ok o')
    (hinv : o.filledAmount + o.remainingAmount = o.params.amount) :
    o'.filledAmount + o'.remainingAmount = o'.params.amount := by
  cases op <;>
    simp only [Order.step, Order.submit, Order.fill, Order.cancel, Order.reject,
      Order.expire] at h <;>
    split_ifs at h <;>
    first
      | exact Except.noConfusion h
      | (injection h with h; subst h; dsimp only; linarith)

/-- C1, main induction: the amount invariant holds along any successful run. -/
theorem runOps_amount {o o' : Order} {ops : List OrderOp}
    (h : runOps o ops = Except.ok o')
    (hinv : o.filledAmount + o.remainingAmount = o.params.amount) :
    o'.filledAmount + o'.remainingAmount = o'.params.amount := by
  induction ops generalizing o with
  | nil => simp only [runOps] at h; cases h; exact hinv
  | cons op ops ih =>
    simp only [runOps] at h
    cases hstep : o.step op with
    | ok o₁ =>
      rw [hstep] at h
      exact ih h (Order.step_amount hstep hinv)
    | error e => rw [hstep] at h; cases h

/-- The request parameters are constant along any successful run. -/
theorem runOps_params {o o' : Order} {ops : List OrderOp}
    (h : runOps o ops = Except.ok o') : o'.params = o.params := by
  induction ops generalizing o with
  | nil => simp only [runOps] at h; cases h; rfl
  | cons op ops ih =>
    simp only [runOps] at h
    cases hstep : o.step op with
    | ok o₁ =>
      rw [hstep] at h
      rw [ih h, Order.step_params hstep]
    | error e => rw [hstep] at h; cases h

/-- C1: for every Order, after construction and after any successful
sequence of submit/fill/cancel/reject/expire operations,
`filled_amount + remaining_amount` equals the requested `params.amount`. -/
theorem order_amount_invariant (params : OrderParams) (sid eid : String)
    (ops : List OrderOp) (o : Order)
    (h : runOps (mkOrder params sid eid) ops = Except.ok o) :
    o.filledAmount + o.remainingAmount = params.amount := by
  have hmk : (mkOrder params sid eid).filledAmount +
      (mkOrder params sid eid).remainingAmount =
      (mkOrder params sid eid).params.amount := by
    simp [mkOrder]
  have hinv := runOps_amount h hmk
  rw [runOps_params h] at hinv
  exact hinv

/-! #### Fill preconditions (C4) -/

/-- Whether an embedded call returned normally (did not raise). -/
def isOkE (r : Except String Order) : Bool :=
  match r with
  | Except.ok _ => true
  | Except.error _ => false

/-- Example order parameters used by the concrete scenarios. -/
def exParams : OrderParams where
  symbol := "BTC/USDT"
  orderType := OrderType.limit
  side := OrderSide.buy
  amount := 2
  price := some 100
  stopPrice := none

/-- A freshly constructed order: status PENDING. -/
def exPendingOrder : Order := mkOrder exParams "strat1" "ex1"

/-- C4 counterexample: the claim says `fill` succeeds **only** from OPEN or
PARTIALLY_FILLED, but the source guard is `is_closed`, so a valid fill on a
PENDING order succeeds instead of raising. -/
theorem fill_on_pending_succeeds :
    exPendingOrder.status = OrderStatus.pending ∧
    exPendingOrder.status ≠ OrderStatus.opened ∧
    exPendingOrder.status ≠ OrderStatus.partFilled ∧
    isOkE (exPendingOrder.fill 1 10 "t0") = true := by
  refine ⟨rfl, by decide, by decide, ?_⟩
  norm_num [isOkE, Order.fill, Order.isClosed, exPendingOrder, mkOrder, exParams]
  rw [if_neg (by decide)]

/-- C4 (amended): `Order.fill(amount, price)` succeeds exactly when the order
is not closed (status PENDING, OPEN or PARTIALLY_FILLED) and `amount > 0` and
`amount ≤ remaining_amount`; in every other case it raises, and since all
three guards precede every mutation the order's state is unchanged by the
failed call (the fill is never silently clamped). -/
theorem order_fill_success_iff (o : Order) (a p : ℚ) (tid : String) :
    (∃ o', o.fill a p tid = Except.ok o') ↔
      (o.isClosed = false ∧ 0 < a ∧ a ≤ o.remainingAmount) := by
  simp only [Order.fill]
  split_ifs with hc ha hr hf
  · refine iff_of_false (by rintro ⟨o', ho'⟩; cases ho') ?_
    rintro ⟨h1, -, -⟩; rw [h1] at hc; exact Bool.noConfusion hc
  · refine iff_of_false (by rintro ⟨o', ho'⟩; cases ho') ?_
    rintro ⟨-, h2, -⟩; linarith
  · refine iff_of_false (by rintro ⟨o', ho'⟩; cases ho') ?_
    rintro ⟨-, -, h3⟩; linarith
  · exact iff_of_true ⟨_, rfl⟩ ⟨by simpa using hc, not_le.mp ha, not_lt.mp hr⟩
  · exact iff_of_true ⟨_, rfl⟩ ⟨by simpa using hc, not_le.mp ha, not_lt.mp hr⟩

/-- An order sitting in the book: status OPEN. -/
def exOpenOrder : Order :=
  { mkOrder exParams "strat1" "ex1" with
      status := OrderStatus.opened, exchangeOrderId := some "x1" }

/-- Witness for the amended C4 theorem at a concrete OPEN order. -/
theorem order_fill_success_iff_witness :
    ∃ o', exOpenOrder.fill 1 10 "t1" = Except.ok o' :=
  (order_fill_success_iff exOpenOrder 1 10 "t1").mpr
    ⟨by decide, by norm_num, by norm_num [exOpenOrder, mkOrder, exParams]⟩

/-! #### Terminal states are immutable (C8) -/

/-- C8: once an order is in a terminal state (FILLED, CANCELED, REJECTED or
EXPIRED, i.e. `is_closed`), every transition operation raises; in the pure
embedding a raising call returns only an error, so the status, fill amounts,
average price and closed-at timestamp of the order are untouched. -/
theorem closed_order_immutable (o : Order) (h : o.isClosed = true) (op : OrderOp) :
    ∃ e, o.step op = Except.error e := by
  have hs : o.status = OrderStatus.filled ∨ o.status = OrderStatus.canceled ∨
      o.status = OrderStatus.rejected ∨ o.status = OrderStatus.expired := by
    simpa [Order.isClosed] using h
  cases op <;>
    rcases hs with h1 | h1 | h1 | h1 <;>
      simp [Order.step, Order.submit, Order.fill, Order.cancel, Order.reject,
        Order.expire, Order.isClosed, h1]

/-- A terminal (canceled) order used to witness C8. -/
def exCanceledOrder : Order :=
  { mkOrder exParams "strat1" "ex1" with
      status := OrderStatus.canceled, closedAt := some 0 }

/-- Witness for C8: a canceled order refuses a further `cancel`. -/
theorem closed_order_immutable_witness :
    ∃ e, exCanceledOrder.step OrderOp.cancel = Except.error e :=
  closed_order_immutable exCanceledOrder rfl OrderOp.cancel

/-! #### Volume-weighted average fill price (C5) -/

/-- Total filled amount recorded in a trade list. -/
def tradeAmountSum (l : List Trade) : ℚ :=
  (l.map Trade.amount).sum

/-- Total notional (amount × price) recorded in a trade list. -/
def tradeNotionalSum (l : List Trade) : ℚ :=
  (l.map (fun t => t.amount * t.price)).sum

/-- Relation between an order's running average price and its trade list:
`average_price` is the volume-weighted mean of the fills so far (`none`
before the first fill), and `filled_amount` is the sum of fill amounts. -/
def vwapInv (o : Order) : Prop :=
  (o.trades = [] → o.averagePrice = none ∧ o.filledAmount = 0) ∧
    (o.trades ≠ [] →
      0 < tradeAmountSum o.trades ∧
        o.filledAmount = tradeAmountSum o.trades ∧
        o.averagePrice = some (tradeNotionalSum o.trades / tradeAmountSum o.trades))

theorem vwapInv_fill_update (o : Order) (a p : ℚ) (tid : String) (ha : 0 < a)
    (hinv : vwapInv o) :
    0 < tradeAmountSum (o.trades ++ [⟨tid, a, p⟩]) ∧
      o.filledAmount + a = tradeAmountSum (o.trades ++ [⟨tid, a, p⟩]) ∧
      (match o.averagePrice with
        | none => p
        | some avg =>
            (avg * (o.filledAmount + a - a) + p * a) / (o.filledAmount + a)) =
        tradeNotionalSum (o.trades ++ [⟨tid, a, p⟩]) /
          tradeAmountSum (o.trades ++ [⟨tid, a, p⟩]) := by
  have hsumA : tradeAmountSum (o.trades ++ [⟨tid, a, p⟩]) = tradeAmountSum o.trades + a := by
    simp [tradeAmountSum]
  have hsumN : tradeNotionalSum (o.trades ++ [⟨tid, a, p⟩]) =
      tradeNotionalSum o.trades + a * p := by
    simp [tradeNotionalSum]
  rcases eq_or_ne o.trades [] with ht | ht
  · obtain ⟨havg, hfil⟩ := hinv.1 ht
    have h0A : tradeAmountSum o.trades = 0 := by simp [ht, tradeAmountSum]
    have h0N : tradeNotionalSum o.trades = 0 := by simp [ht, tradeNotionalSum]
    rw [hsumA, hsumN, h0A, h0N, havg, hfil]
    refine ⟨by linarith, by ring, ?_⟩
    rw [zero_add, zero_add, mul_comm a p, mul_div_assoc,
      div_self (ne_of_gt ha), mul_one]
  · obtain ⟨hpos, hfil, havg⟩ := hinv.2 ht
    rw [hsumA, hsumN, havg, hfil]
    refine ⟨by linarith, rfl, ?_⟩
    dsimp only
    rw [show tradeAmountSum o.trades + a - a = tradeAmountSum o.trades from by ring,
      div_mul_cancel₀ _ (ne_of_gt hpos)]
    ring_nf

/-- Every successful lifecycle step preserves the weighted-average relation. -/
theorem Order.step_vwap {o o' : Order} {op : OrderOp}
    (h : o.step op = Except.ok o') (hinv : vwapInv o) : vwapInv o' := by
  cases op with
  | fill a p tid =>
    simp only [Order.step, Order.fill] at h
    split_ifs at h with hc ha hr hf <;>
      first
        | exact Except.noConfusion h
        | (injection h with h
           subst h
           refine ⟨fun habs => by simp at habs, fun _ => ?_⟩
           dsimp only
           obtain ⟨h1, h2, h3⟩ := vwapInv_fill_update o a p tid (not_le.mp ha) hinv
           exact ⟨h1, h2, congrArg some h3⟩)
  | submit eid =>
    simp only [Order.step, Order.submit] at h
    split_ifs at h <;>
      first
        | exact Except.noConfusion h
        | (injection h with h; subst h; exact hinv)
  | cancel =>
    simp only [Order.step, Order.cancel] at h
    split_ifs at h <;>
      first
        | exact Except.noConfusion h
        | (injection h with h; subst h; exact hinv)
  | reject r =>
    simp only [Order.step, Order.reject] at h
    split_ifs at h <;>
      first
        | exact Except.noConfusion h
        | (injection h with h; subst h; exact hinv)
  | expire =>
    simp only [Order.step, Order.expire] at h
    split_ifs at h <;>
      first
        | exact Except.noConfusion h
        | (injection h with h; subst h; exact hinv)

/-- The weighted-average relation holds along any successful run. -/
theorem runOps_vwap {o o' : Order} {ops : List OrderOp}
    (h : runOps o ops = Except.ok o') (hinv : vwapInv o) : vwapInv o' := by
  induction ops generalizing o with
  | nil => simp only [runOps] at h; cases h; exact hinv
  | cons op ops ih =>
    simp only [runOps] at h
    cases hstep : o.step op with
    | ok o₁ =>
      rw [hstep] at h
      exact ih h (Order.step_vwap hstep hinv)
    | error e => rw [hstep] at h; cases h

/-- The operation sequence of the concrete average-price example:
submit, then fills of (amount 1, price 100) and (amount 1, price 110). -/
def exAvgOps : List OrderOp :=
  [OrderOp.submit "x1", OrderOp.fill 1 100 "t1", OrderOp.fill 1 110 "t2"]

/-- The order state produced by `exAvgOps` from a fresh order over `exParams`. -/
def exAvgOrder : Order where
  params := exParams
  strategyId := "strat1"
  exchangeId := "ex1"
  status := OrderStatus.filled
  filledAmount := 2
  remainingAmount := 0
  averagePrice := some 105
  exchangeOrderId := some "x1"
  closedAt := some 0
  trades := [⟨"t1", 1, 100⟩, ⟨"t2", 1, 110⟩]

/-- The intermediate order after the first fill of the example. -/
def exPartOrder : Order where
  params := exParams
  strategyId := "strat1"
  exchangeId := "ex1"
  status := OrderStatus.partFilled
  filledAmount := 1
  remainingAmount := 1
  averagePrice := some 100
  exchangeOrderId := some "x1"
  closedAt := none
  trades := [⟨"t1", 1, 100⟩]

theorem exAvg_run :
    runOps (mkOrder exParams "strat1" "ex1") exAvgOps = Except.ok exAvgOrder := by
  have s1 : (mkOrder exParams "strat1" "ex1").step (OrderOp.submit "x1") =
      Except.ok { mkOrder exParams "strat1" "ex1" with
        status := OrderStatus.opened, exchangeOrderId := some "x1" } := by
    norm_num +decide [Order.step, Order.submit, mkOrder]
  have s2 : ({ mkOrder exParams "strat1" "ex1" with
      status := OrderStatus.opened, exchangeOrderId := some "x1" } : Order).step
        (OrderOp.fill 1 100 "t1") = Except.ok exPartOrder := by
    norm_num +decide [Order.step, Order.fill, Order.isClosed, mkOrder, exParams,
      exPartOrder]
  have s3 : exPartOrder.step (OrderOp.fill 1 110 "t2") = Except.ok exAvgOrder := by
    norm_num +decide [Order.step, Order.fill, Order.isClosed, exPartOrder, exParams,
      exAvgOrder]
  simp [runOps, exAvgOps, s1, s2, s3]

/-- C5: after each successful `Order.fill`, `average_price` is the
volume-weighted mean of all fill prices so far (first conjunct, over every
reachable order state); each single fill updates it by
`avg' = (avg*filled_before + price*amount) / filled_after`, with
`avg = price` on a first fill (second conjunct, matching the source's
update expression); and the concrete run with fills (1, 100) then (1, 110)
ends with `average_price = 105` (remaining conjuncts). -/
theorem order_average_price_spec :
    (∀ (params : OrderParams) (sid eid : String) (ops : List OrderOp) (o : Order),
        runOps (mkOrder params sid eid) ops = Except.ok o → o.trades ≠ [] →
        o.averagePrice = some (tradeNotionalSum o.trades / tradeAmountSum o.trades))
    ∧ (∀ (o : Order) (a p : ℚ) (tid : String) (o' : Order),
        o.fill a p tid = Except.ok o' →
        o'.averagePrice = some (match o.averagePrice with
          | none => p
          | some avg => (avg * o.filledAmount + p * a) / (o.filledAmount + a)))
    ∧ runOps (mkOrder exParams "strat1" "ex1") exAvgOps = Except.ok exAvgOrder
    ∧ exAvgOrder.averagePrice = some 105 := by
  refine ⟨?_, ?_, exAvg_run, rfl⟩
  · intro params sid eid ops o h ht
    have hmk : vwapInv (mkOrder params sid eid) := by
      constructor
      · intro _; exact ⟨rfl, rfl⟩
      · intro habs; exact absurd rfl habs
    exact ((runOps_vwap h hmk).2 ht).2.2
  · intro o a p tid o' h
    simp only [Order.fill] at h
    split_ifs at h with hc ha hr hf <;>
      first
        | exact Except.noConfusion h
        | (injection h with h
           subst h
           cases havg : o.averagePrice <;>
             simp only [havg] <;>
             rw [show o.filledAmount + a - a = o.filledAmount from by ring])

/-- Witness for C5: the volume-weighted-mean statement and the single-fill
recurrence evaluated on the concrete two-fill example. -/
theorem order_average_price_spec_witness :
    exAvgOrder.averagePrice =
        some (tradeNotionalSum exAvgOrder.trades / tradeAmountSum exAvgOrder.trades) ∧
      exAvgOrder.averagePrice = some ((100 * exPartOrder.filledAmount + 110 * 1) /
        (exPartOrder.filledAmount + 1)) := by
  constructor
  · exact order_average_price_spec.1 exParams "strat1" "ex1" exAvgOps exAvgOrder
      exAvg_run (by decide)
  · have h := order_average_price_spec.2.1 exPartOrder 1 110 "t2" exAvgOrder
      (by norm_num +decide [Order.fill, Order.isClosed, exPartOrder, exParams, exAvgOrder])
    simpa [exPartOrder] using h

/-- Witness for C1: the amount invariant evaluated on the concrete run. -/
theorem order_amount_invariant_witness :
    runOps (mkOrder exParams "strat1" "ex1") exAvgOps = Except.ok exAvgOrder ∧
      exAvgOrder.filledAmount + exAvgOrder.remainingAmount = exParams.amount := by
  exact ⟨exAvg_run,
    order_amount_invariant exParams "strat1" "ex1" exAvgOps exAvgOrder exAvg_run⟩

/-! ### Account model (`lightquant/domain/models/account.py`) -/

/-- Per-asset balance: free and locked quantities; `total` is derived. -/
structure Balance where
  asset : String
  free : ℚ
  locked : ℚ
  deriving DecidableEq

/-- `Balance.total = free + locked` (derived, never stored). -/
def Balance.total (b : Balance) : ℚ :=
  b.free + b.locked

/-- The `Account.balances` dict (the aggregate's id/exchange/name fields do
not affect any balance operation and are omitted). -/
abbrev Account := List (String × Balance)

/-- `Account.get_balance`. -/
def getBalance (acct : Account) (asset : String) : Option Balance :=
  alookup acct asset

/-- `Account.update_balance`: replaces the asset's entry with a fresh
`Balance(asset, free, locked)`. -/
def updateBalance (acct : Account) (asset : String) (free locked : ℚ) : Account :=
  aset acct asset ⟨asset, free, locked⟩

/-- `Account.lock_balance`: fails when the asset is missing or `free < amount`;
otherwise moves `amount` from free to locked. -/
def lockBalance (acct : Account) (asset : String) (amount : ℚ) : Bool × Account :=
  match getBalance acct asset with
  | none => (false, acct)
  | some b =>
    if b.free < amount then (false, acct)
    else (true, updateBalance acct asset (b.free - amount) (b.locked + amount))

/-- `Account.unlock_balance`: fails when the asset is missing or
`locked < amount`; otherwise moves `amount` from locked back to free. -/
def unlockBalance (acct : Account) (asset : String) (amount : ℚ) : Bool × Account :=
  match getBalance acct asset with
  | none => (false, acct)
  | some b =>
    if b.locked < amount then (false, acct)
    else (true, updateBalance acct asset (b.free + amount) (b.locked - amount))

/-- `Account.deduct_balance`: removes `amount` from the locked or the free
quantity according to `from_locked`, failing if that quantity is short. -/
def deductBalance (acct : Account) (asset : String) (amount : ℚ)
    (fromLocked : Bool) : Bool × Account :=
  match getBalance acct asset with
  | none => (false, acct)
  | some b =>
    if fromLocked then
      if b.locked < amount then (false, acct)
      else (true, updateBalance acct asset b.free (b.locked - amount))
    else
      if b.free < amount then (false, acct)
      else (true, updateBalance acct asset (b.free - amount) b.locked)

/-- Derived total (free + locked) held for an asset; 0 when unlisted. -/
def assetTotal (acct : Account) (asset : String) : ℚ :=
  match getBalance acct asset with
  | none => 0
  | some b => b.total

theorem lockBalance_fst (acct : Account) (asset : String) (amt : ℚ) :
    (lockBalance acct asset amt).1 =
      (match getBalance acct asset with
       | none => false
       | some b => !decide (b.free < amt)) := by
  cases hb : alookup acct asset with
  | none => simp [lockBalance, getBalance, hb]
  | some b =>
    by_cases hlt : b.free < amt <;> simp [lockBalance, getBalance, hb, hlt]

theorem lockBalance_lookup (acct : Account) (asset : String) (amt : ℚ) (a : String) :
    getBalance (lockBalance acct asset amt).2 a =
      (match getBalance acct asset with
       | none => getBalance acct a
       | some b =>
         if b.free < amt then getBalance acct a
         else if a = asset then some ⟨asset, b.free - amt, b.locked + amt⟩
         else getBalance acct a) := by
  cases hb : alookup acct asset with
  | none => simp [lockBalance, getBalance, hb]
  | some b =>
    by_cases hlt : b.free < amt
    · simp [lockBalance, getBalance, hb, hlt]
    · by_cases ha : a = asset
      · subst ha
        simp [lockBalance, getBalance, hb, hlt, updateBalance, alookup_aset_self]
      · simp [lockBalance, getBalance, hb, hlt, ha, updateBalance,
          alookup_aset_ne _ _ _ _ ha]

theorem lockBalance_total (acct : Account) (asset : String) (amt : ℚ) (a : String) :
    assetTotal (lockBalance acct asset amt).2 a = assetTotal acct a := by
  rw [assetTotal, assetTotal, lockBalance_lookup]
  cases hb : getBalance acct asset with
  | none => rfl
  | some b =>
    by_cases hlt : b.free < amt
    · simp [hlt]
    · by_cases ha : a = asset
      · subst ha
        simp [hlt, hb, Balance.total]
      · simp [hlt, ha]

theorem unlockBalance_fst (acct : Account) (asset : String) (amt : ℚ) :
    (unlockBalance acct asset amt).1 =
      (match getBalance acct asset with
       | none => false
       | some b => !decide (b.locked < amt)) := by
  cases hb : alookup acct asset with
  | none => simp [unlockBalance, getBalance, hb]
  | some b =>
    by_cases hlt : b.locked < amt <;> simp [unlockBalance, getBalance, hb, hlt]

theorem unlockBalance_lookup (acct : Account) (asset : String) (amt : ℚ) (a : String) :
    getBalance (unlockBalance acct asset amt).2 a =
      (match getBalance acct asset with
       | none => getBalance acct a
       | some b =>
         if b.locked < amt then getBalance acct a
         else if a = asset then some ⟨asset, b.free + amt, b.locked - amt⟩
         else getBalance acct a) := by
  cases hb : alookup acct asset with
  | none => simp [unlockBalance, getBalance, hb]
  | some b =>
    by_cases hlt : b.locked < amt
    · simp [unlockBalance, getBalance, hb, hlt]
    · by_cases ha : a = asset
      · subst ha
        simp [unlockBalance, getBalance, hb, hlt, updateBalance, alookup_aset_self]
      · simp [unlockBalance, getBalance, hb, hlt, ha, updateBalance,
          alookup_aset_ne _ _ _ _ ha]

theorem unlockBalance_total (acct : Account) (asset : String) (amt : ℚ) (a : String) :
    assetTotal (unlockBalance acct asset amt).2 a = assetTotal acct a := by
  rw [assetTotal, assetTotal, unlockBalance_lookup]
  cases hb : getBalance acct asset with
  | none => rfl
  | some b =>
    by_cases hlt : b.locked < amt
    · simp [hlt]
    · by_cases ha : a = asset
      · subst ha
        simp [hlt, hb, Balance.total]
      · simp [hlt, ha]

theorem deductBalance_fst (acct : Account) (asset : String) (amt : ℚ) (fl : Bool) :
    (deductBalance acct asset amt fl).1 =
      (match getBalance acct asset with
       | none => false
       | some b => if fl then !decide (b.locked < amt) else !decide (b.free < amt)) := by
  cases hb : alookup acct asset with
  | none => simp [deductBalance, getBalance, hb]
  | some b =>
    cases fl
    · by_cases hlt : b.free < amt <;> simp [deductBalance, getBalance, hb, hlt]
    · by_cases hlt : b.locked < amt <;> simp [deductBalance, getBalance, hb, hlt]

theorem deductBalance_lookup (acct : Account) (asset : String) (amt : ℚ) (fl : Bool)
    (a : String) :
    getBalance (deductBalance acct asset amt fl).2 a =
      (match getBalance acct asset with
       | none => getBalance acct a
       | some b =>
         if fl then
           if b.locked < amt then getBalance acct a
           else if a = asset then some ⟨asset, b.free, b.locked - amt⟩
           else getBalance acct a
         else
           if b.free < amt then getBalance acct a
           else if a = asset then some ⟨asset, b.free - amt, b.locked⟩
           else getBalance acct a) := by
  cases hb : alookup acct asset with
  | none => simp [deductBalance, getBalance, hb]
  | some b =>
    cases fl
    · by_cases hlt : b.free < amt
      · simp [deductBalance, getBalance, hb, hlt]
      · by_cases ha : a = asset
        · subst ha
          simp [deductBalance, getBalance, hb, hlt, updateBalance, alookup_aset_self]
        · simp [deductBalance, getBalance, hb, hlt, ha, updateBalance,
            alookup_aset_ne _ _ _ _ ha]
    · by_cases hlt : b.locked < amt
      · simp [deductBalance, getBalance, hb, hlt]
      · by_cases ha : a = asset
        · subst ha
          simp [deductBalance, getBalance, hb, hlt, updateBalance, alookup_aset_self]
        · simp [deductBalance, getBalance, hb, hlt, ha, updateBalance,
            alookup_aset_ne _ _ _ _ ha]

/-- C10: `lock_balance`, `unlock_balance`, `deduct_balance` return false and
leave every balance untouched exactly when the asset is unlisted or the
relevant quantity (free for lock and non-locked deduct, locked for unlock
and locked deduct) is short; otherwise they return true and apply exactly
the requested transfer, with lock/unlock preserving each asset's
free+locked total.  Stated as unconditional equations: the result flag, the
per-asset contents of the updated account, and total preservation. -/
theorem account_balance_ops_spec (acct : Account) (asset : String) (amt : ℚ)
    (fl : Bool) :
    ((lockBalance acct asset amt).1 =
      (match getBalance acct asset with
       | none => false
       | some b => !decide (b.free < amt)))
    ∧ (∀ a, getBalance (lockBalance acct asset amt).2 a =
        (match getBalance acct asset with
         | none => getBalance acct a
         | some b =>
           if b.free < amt then getBalance acct a
           else if a = asset then some ⟨asset, b.free - amt, b.locked + amt⟩
           else getBalance acct a))
    ∧ (∀ a, assetTotal (lockBalance acct asset amt).2 a = assetTotal acct a)
    ∧ ((unlockBalance acct asset amt).1 =
      (match getBalance acct asset with
       | none => false
       | some b => !decide (b.locked < amt)))
    ∧ (∀ a, getBalance (unlockBalance acct asset amt).2 a =
        (match getBalance acct asset with
         | none => getBalance acct a
         | some b =>
           if b.locked < amt then getBalance acct a
           else if a = asset then some ⟨asset, b.free + amt, b.locked - amt⟩
           else getBalance acct a))
    ∧ (∀ a, assetTotal (unlockBalance acct asset amt).2 a = assetTotal acct a)
    ∧ ((deductBalance acct asset amt fl).1 =
      (match getBalance acct asset with
       | none => false
       | some b => if fl then !decide (b.locked < amt) else !decide (b.free < amt)))
    ∧ (∀ a, getBalance (deductBalance acct asset amt fl).2 a =
        (match getBalance acct asset with
         | none => getBalance acct a
         | some b =>
           if fl then
             if b.locked < amt then getBalance acct a
             else if a = asset then some ⟨asset, b.free, b.locked - amt⟩
             else getBalance acct a
           else
             if b.free < amt then getBalance acct a
             else if a = asset then some ⟨asset, b.free - amt, b.locked⟩
             else getBalance acct a)) :=
  ⟨lockBalance_fst acct asset amt,
   lockBalance_lookup acct asset amt,
   lockBalance_total acct asset amt,
   unlockBalance_fst acct asset amt,
   unlockBalance_lookup acct asset amt,
   unlockBalance_total acct asset amt,
   deductBalance_fst acct asset amt fl,
   deductBalance_lookup acct asset amt fl⟩

/-! ### Risk manager (`lightquant/domain/risk_management/risk_manager.py`)

A rule carries its `enabled` flag and its (possibly side-effecting)
`check_order`; all mutable state a check can read or write — the rules' own
attributes and the manager's shared context dict — is collected in a single
state type `σ` threaded through the checks.  The manager's insertion-ordered
`rules` dict is the list order. -/

/-- A risk rule: `enabled` flag plus the `check_order(order, account, context)`
body, which returns its allow/deny verdict and may mutate state. -/
structure Rule (σ : Type) where
  enabled : Bool
  check : σ → Bool × σ

/-- Outcome of `RiskManager.check_order`: the returned boolean, the final
state, and how many rule checks were invoked along the way. -/
structure CheckRun (σ : Type) where
  result : Bool
  state : σ
  invoked : ℕ
  deriving DecidableEq

/-- `RiskManager.check_order`: walk the rules in insertion order, skip
disabled ones, invoke each enabled rule's check, and return false as soon
as one denies (later rules are not invoked). -/
def checkOrderRun {σ : Type} : List (Rule σ) → σ → CheckRun σ
  | [], s => ⟨true, s, 0⟩
  | r :: rs, s =>
    if r.enabled then
      match r.check s with
      | (ok, s') =>
        if ok then
          let c := checkOrderRun rs s'
          ⟨c.result, c.state, c.invoked + 1⟩
        else ⟨false, s', 1⟩
    else checkOrderRun rs s

/-- The verdicts of **every** enabled rule, evaluated in insertion order with
state threaded through and no short-circuiting — the reference meaning of
"some enabled rule's check denies the order". -/
def runAllChecks {σ : Type} : List (Rule σ) → σ → List Bool
  | [], _ => []
  | r :: rs, s =>
    if r.enabled then
      match r.check s with
      | (ok, s') => ok :: runAllChecks rs s'
    else runAllChecks rs s

/-- C3: `check_order` returns false iff some enabled rule's check (run in
insertion order with state threaded) denies; disabled rules are skipped and
evaluation short-circuits — the number of checks invoked is the number of
enabled rules up to and including the first denier (all of them when every
enabled rule allows). -/
theorem risk_manager_check_order_spec {σ : Type} (rules : List (Rule σ)) (s : σ) :
    ((checkOrderRun rules s).result = false ↔ false ∈ runAllChecks rules s)
    ∧ (checkOrderRun rules s).invoked =
        (if false ∈ runAllChecks rules s then
          ((runAllChecks rules s).takeWhile (fun b => b)).length + 1
        else (runAllChecks rules s).length) := by
  induction rules generalizing s with
  | nil => simp [checkOrderRun, runAllChecks]
  | cons r rs ih =>
    by_cases he : r.enabled
    · rcases hc : r.check s with ⟨ok, s'⟩
      cases ok
      · simp [checkOrderRun, runAllChecks, he, hc, List.takeWhile]
      · have ihr := ih s'
        by_cases hm : false ∈ runAllChecks rs s'
        · simp [checkOrderRun, runAllChecks, he, hc, List.takeWhile, hm,
            ihr.1, ihr.2]
        · simp [checkOrderRun, runAllChecks, he, hc, List.takeWhile, hm,
            ihr.1, ihr.2]
    · simp [checkOrderRun, runAllChecks, he, ih s]

/-- Two-rule concrete configuration: an enabled rule that allows and an
enabled rule that denies, over a unit state. -/
def exRules : List (Rule Unit) :=
  [⟨true, fun s => (true, s)⟩, ⟨true, fun s => (false, s)⟩, ⟨true, fun s => (true, s)⟩]

/-- Witness for C3 at a concrete rule list: allow, deny, allow — the manager
returns false after invoking exactly the first two checks. -/
theorem risk_manager_check_order_spec_witness :
    ((checkOrderRun exRules ()).result = false ↔ false ∈ runAllChecks exRules ())
    ∧ (checkOrderRun exRules ()).invoked =
        (if false ∈ runAllChecks exRules () then
          ((runAllChecks exRules ()).takeWhile (fun b => b)).length + 1
        else (runAllChecks exRules ()).length) :=
  risk_manager_check_order_spec exRules ()

/-! ### Max-trades-per-day rule (`lightquant/domain/risk_management/risk_rule.py`) -/

/-- Internal state of `MaxTradesPerDayRule`: the ids recorded today and the
stored current day (days are modelled as integers). -/
structure MTPDState where
  tradesToday : List String
  currentDate : ℤ
  deriving DecidableEq

/-- `MaxTradesPerDayRule.check_order`: a disabled rule allows; otherwise the
current day is taken from `context["current_time"]` when present (else the
wall clock `sysDate`), the trade list resets when the day changed, the check
denies once the list length has reached `max_trades`, and otherwise records
the order id and allows. -/
def maxTradesCheck (enabled : Bool) (maxTrades : ℕ) (orderId : String)
    (ctxDate : Option ℤ) (sysDate : ℤ) (st : MTPDState) : Bool × MTPDState :=
  if !enabled then (true, st)
  else
    let currentDate : ℤ :=
      match ctxDate with
      | some d => d
      | none => sysDate
    let st1 : MTPDState :=
      if currentDate ≠ st.currentDate then ⟨[], currentDate⟩ else st
    if st1.tradesToday.length ≥ maxTrades then (false, st1)
    else (true, ⟨st1.tradesToday ++ [orderId], st1.currentDate⟩)

/-- C6: with `max_trades = 3`, three distinct orders on simulated day 10 are
allowed (each recording exactly one id), the fourth on the same day is
denied with the list unchanged, and after the simulated day from
`context["current_time"]` rolls to 11 the list resets, so a fifth order is
allowed and recorded alone. -/
theorem max_trades_per_day_scenario :
    maxTradesCheck true 3 "o1" (some 10) 0 ⟨[], 0⟩ = (true, ⟨["o1"], 10⟩)
    ∧ maxTradesCheck true 3 "o2" (some 10) 0 ⟨["o1"], 10⟩ =
        (true, ⟨["o1", "o2"], 10⟩)
    ∧ maxTradesCheck true 3 "o3" (some 10) 0 ⟨["o1", "o2"], 10⟩ =
        (true, ⟨["o1", "o2", "o3"], 10⟩)
    ∧ maxTradesCheck true 3 "o4" (some 10) 0 ⟨["o1", "o2", "o3"], 10⟩ =
        (false, ⟨["o1", "o2", "o3"], 10⟩)
    ∧ maxTradesCheck true 3 "o5" (some 11) 0 ⟨["o1", "o2", "o3"], 10⟩ =
        (true, ⟨["o5"], 11⟩) := by
  refine ⟨?_, ?_, ?_, ?_, ?_⟩ <;> decide

/-! ### Backtest engine fill simulation
(`lightquant/domain/strategies/backtest_engine.py`, `_process_order`)

`_process_order` is written against an order/balance shape of its own: it
reads `order.side` / `order.amount` / `order.symbol` and constructs
`Balance(currency=..., free=..., used=..., total=...)` with a stored
mutable `total` — none of which the `Order`/`Balance` classes it imports
provide (see `processOrderSrc` below for the call as it actually executes
against the imported domain model).  The definitions of this section
transcribe the balance arithmetic as the engine's text writes it, with the
engine-local balance shape; the replay-loop model of `run_backtest` uses
them as the engine's intended per-order action. -/

/-- The balance record as the engine's own text manipulates it (constructed
with `currency`/`used` fields and a stored `total` that is mutated
directly — unlike the imported domain `Balance`, whose `total` is a derived
read-only property). -/
structure BTBalance where
  currency : String
  free : ℚ
  used : ℚ
  total : ℚ
  deriving DecidableEq

/-- The engine account's `balances` dict. -/
abbrev BTBalances := List (String × BTBalance)

/-- Result of the fill-simulation section of `_process_order`. -/
structure FillOutcome where
  price : ℚ
  fee : ℚ
  balances : BTBalances
  deriving DecidableEq

/-- The fill-simulation arithmetic as written in `_process_order`:
execution price is the bar close adjusted by slippage per side, fee is
`amount × price × commission_rate`, then the balances are updated — the
debited asset only if it already has an entry, the credited asset getting a
fresh zero entry first when previously unseen.  Against the imported domain
model this arithmetic is unreachable (the call raises first; see
`processOrderSrc`); it is kept as the engine's written intent, which the
replay-loop model below treats as the per-order action. -/
def processOrderFill (side : OrderSide) (base quote : String)
    (amount close slippage commissionRate : ℚ) (bs : BTBalances) : FillOutcome :=
  let executionPrice : ℚ :=
    match side with
    | OrderSide.buy => close * (1 + slippage)
    | OrderSide.sell => close * (1 - slippage)
  let fee := amount * executionPrice * commissionRate
  match side with
  | OrderSide.buy =>
    let bs1 :=
      match alookup bs quote with
      | some b => aset bs quote { b with
          free := b.free - (amount * executionPrice + fee),
          total := b.total - (amount * executionPrice + fee) }
      | none => bs
    let bs2 :=
      match alookup bs1 base with
      | some _ => bs1
      | none => aset bs1 base ⟨base, 0, 0, 0⟩
    let bs3 :=
      match alookup bs2 base with
      | some b => aset bs2 base { b with
          free := b.free + amount, total := b.total + amount }
      | none => bs2
    ⟨executionPrice, fee, bs3⟩
  | OrderSide.sell =>
    let bs1 :=
      match alookup bs base with
      | some b => aset bs base { b with
          free := b.free - amount, total := b.total - amount }
      | none => bs
    let bs2 :=
      match alookup bs1 quote with
      | some _ => bs1
      | none => aset bs1 quote ⟨quote, 0, 0, 0⟩
    let bs3 :=
      match alookup bs2 quote with
      | some b => aset bs2 quote { b with
          free := b.free + (amount * executionPrice - fee),
          total := b.total + (amount * executionPrice - fee) }
      | none => bs2
    ⟨executionPrice, fee, bs3⟩

/-! ### Max drawdown (`_calculate_performance_metrics`, lines 524–533) -/

/-- The drawdown loop: walk the equity values, raising the running peak on a
new high and otherwise accumulating `max acc ((peak − e) / peak)`. -/
def mddGo : ℚ → ℚ → List ℚ → ℚ
  | acc, _, [] => acc
  | acc, peak, e :: rest =>
    if peak < e then mddGo acc e rest
    else mddGo (max acc ((peak - e) / peak)) peak rest

/-- `max_drawdown`: 0 for an empty curve, else the loop started with
accumulator 0 and peak `E_0` over the whole series. -/
def maxDrawdown : List ℚ → ℚ
  | [] => 0
  | e0 :: rest => mddGo 0 e0 (e0 :: rest)

/-- The per-point drawdown terms of the spec: `(peak_i − E_i) / peak_i`
with `peak_i` the running maximum up to and including `E_i`. -/
def drawdownTerms : ℚ → List ℚ → List ℚ
  | _, [] => []
  | peak, e :: rest =>
    let p := max peak e
    ((p - e) / p) :: drawdownTerms p rest

/-- Maximum of a nonempty list, folded from a first element. -/
def listMaxFrom : ℚ → List ℚ → ℚ
  | x, [] => x
  | x, y :: rest => listMaxFrom (max x y) rest

/-- The spec's wording of max_drawdown: the maximum over the series of
`(running_peak − E_i) / running_peak`. -/
def specMaxDrawdown : List ℚ → ℚ
  | [] => 0
  | e0 :: rest =>
    match drawdownTerms e0 (e0 :: rest) with
    | [] => 0
    | t :: ts => listMaxFrom t ts

theorem mddGo_eq_listMaxFrom (l : List ℚ) :
    ∀ acc peak : ℚ, 0 ≤ acc →
      mddGo acc peak l = listMaxFrom acc (drawdownTerms peak l) := by
  induction l with
  | nil => intro acc peak _; rfl
  | cons e rest ih =>
    intro acc peak hacc
    by_cases hpe : peak < e
    · have hmax : max peak e = e := max_eq_right (le_of_lt hpe)
      simp only [mddGo, drawdownTerms, listMaxFrom, if_pos hpe, hmax]
      rw [sub_self, zero_div, max_eq_left hacc]
      exact ih acc e hacc
    · have hmax : max peak e = peak := max_eq_left (le_of_not_lt hpe)
      simp only [mddGo, drawdownTerms, listMaxFrom, if_neg hpe, hmax]
      exact ih _ peak (le_trans hacc (le_max_left _ _))

theorem maxDrawdown_eq_spec (l : List ℚ) : maxDrawdown l = specMaxDrawdown l := by
  cases l with
  | nil => rfl
  | cons e0 rest =>
    simp only [maxDrawdown, specMaxDrawdown, mddGo, drawdownTerms,
      if_neg (lt_irrefl e0), max_self]
    rw [sub_self, zero_div, max_self]
    exact mddGo_eq_listMaxFrom rest 0 e0 le_rfl

theorem mddGo_of_chain (l : List ℚ) :
    ∀ acc peak : ℚ, 0 ≤ acc → List.Chain' (· ≤ ·) (peak :: l) →
      mddGo acc peak l = acc := by
  induction l with
  | nil => intro acc peak _ _; rfl
  | cons e rest ih =>
    intro acc peak hacc hch
    have hpe : peak ≤ e := (List.chain'_cons.mp hch).1
    have hch' : List.Chain' (· ≤ ·) (e :: rest) := (List.chain'_cons.mp hch).2
    by_cases hlt : peak < e
    · simp only [mddGo, if_pos hlt]
      exact ih acc e hacc hch'
    · have he : e = peak := le_antisymm (le_of_not_lt hlt) hpe
      simp only [mddGo, if_neg hlt]
      rw [he, sub_self, zero_div, max_eq_left hacc]
      exact ih acc peak hacc (he ▸ hch')

/-- C7: the drawdown loop computes exactly the spec's
`max over i of (running_peak − E_i) / running_peak` (first conjunct); it is 0
on any flat or rising (monotone nondecreasing) series (second conjunct); and
on [100, 120, 90, 110] it returns 0.25 (third conjunct). -/
theorem max_drawdown_spec :
    (∀ l : List ℚ, maxDrawdown l = specMaxDrawdown l)
    ∧ (∀ l : List ℚ, List.Chain' (· ≤ ·) l → maxDrawdown l = 0)
    ∧ maxDrawdown [100, 120, 90, 110] = 1/4 := by
  refine ⟨maxDrawdown_eq_spec, ?_, ?_⟩
  · intro l hch
    cases l with
    | nil => rfl
    | cons e0 rest =>
      simp only [maxDrawdown, mddGo, if_neg (lt_irrefl e0)]
      rw [sub_self, zero_div, max_self]
      exact mddGo_of_chain rest 0 e0 le_rfl hch
  · norm_num [maxDrawdown, mddGo, max_def]

/-- Witness for C7: the refinement and the monotone case evaluated on the
concrete rising series [100, 100, 120]. -/
theorem max_drawdown_spec_witness :
    maxDrawdown [100, 100, 120] = specMaxDrawdown [100, 100, 120]
    ∧ maxDrawdown [100, 100, 120] = 0 :=
  ⟨max_drawdown_spec.1 [100, 100, 120],
   max_drawdown_spec.2.1 [100, 100, 120] (by norm_num [List.chain'_cons])⟩

/-! ### Backtest replay loop (`run_backtest`)

The loop state collects the engine account's balances, the strategy
context's order dict, the engine's filled-order log, and the snapshot /
equity series.  The user-supplied strategy is the one genuine parameter of
the loop: its `on_candle` may raise, modelled as `Except`.  The risk
manager's per-order verdict enters `_process_order` as a boolean gate; the
`context.update_candle` bookkeeping is folded into the callback, which
receives the candle directly. -/

/-- A bar: symbol, timestamp (abstract tick) and close price (open, high,
low and volume are read by no claim-relevant code path). -/
structure Candle where
  symbol : String
  timestamp : ℕ
  close : ℚ
  deriving DecidableEq

/-- An order as the engine's `_process_order` reads it: id, the symbol split
into base/quote, side, amount and status. -/
structure BTOrder where
  id : String
  base : String
  quote : String
  side : OrderSide
  amount : ℚ
  status : OrderStatus
  deriving DecidableEq

/-- Engine configuration: slippage, commission rate, the latest loaded close
per asset (the reduction of `self.candles` that `_update_account_snapshot`
reads), and the risk manager's verdict per order. -/
structure EngConfig where
  slippage : ℚ
  commissionRate : ℚ
  lastClose : List (String × ℚ)
  riskGate : BTOrder → Bool

/-- Mutable state of one replay. -/
structure EngState where
  balances : BTBalances
  openOrders : List BTOrder
  filledOrders : List BTOrder
  snapshots : List (ℕ × List (String × ℚ))
  equityCurve : List (ℕ × ℚ)
  deriving DecidableEq

/-- Set the status of the order with the given id (the shared `Order` object
mutated in place in the source). -/
def setOrderStatus (orders : List BTOrder) (oid : String) (st : OrderStatus) :
    List BTOrder :=
  orders.map (fun x => if x.id = oid then { x with status := st } else x)

/-- The per-order action of the replay loop as `_process_order` writes it:
reject when the risk gate denies; then fill an OPEN or PARTIALLY_FILLED
order at the bar close via the fill-simulation arithmetic, mark it FILLED
and append it to the engine's order log.  (Against the imported domain
model the fill section instead raises before mutating anything — see
`processOrderSrc`; this definition models the engine's written intent so
that the loop around it can be stated.) -/
def processOrderEng (cfg : EngConfig) (c : Candle) (s : EngState) (o : BTOrder) :
    EngState :=
  if cfg.riskGate o = false then
    { s with openOrders := setOrderStatus s.openOrders o.id OrderStatus.rejected }
  else if o.status = OrderStatus.opened ∨ o.status = OrderStatus.partFilled then
    let r := processOrderFill o.side o.base o.quote o.amount c.close cfg.slippage
      cfg.commissionRate s.balances
    { s with balances := r.balances,
             openOrders := setOrderStatus s.openOrders o.id OrderStatus.filled,
             filledOrders := s.filledOrders ++ [{ o with status := OrderStatus.filled }] }
  else s

/-- The pre-callback pass of each bar: attempt a fill for every currently
OPEN order in the context's order dict. -/
def processOpenOrders (cfg : EngConfig) (c : Candle) (s : EngState) : EngState :=
  (s.openOrders.filter (fun o => o.status == OrderStatus.opened)).foldl
    (processOrderEng cfg c) s

/-- `_update_account_snapshot`: record per-asset totals and append the
equity point (USDT counted at par, other assets via the latest close). -/
def updateAccountSnapshot (cfg : EngConfig) (t : ℕ) (s : EngState) : EngState :=
  let totals := s.balances.map (fun kv => (kv.1, kv.2.total))
  let equity := totals.foldl
    (fun acc kv =>
      if kv.1 = "USDT" then acc + kv.2
      else
        match alookup cfg.lastClose kv.1 with
        | some p => acc + kv.2 * p
        | none => acc) 0
  { s with snapshots := s.snapshots ++ [(t, totals)],
           equityCurve := s.equityCurve ++ [(t, equity)] }

/-- The strategy's bar callback (`on_candle`): returns the orders of its
`StrategyResult`, or raises. -/
abbrev StratCB := Candle → EngState → Except String (List BTOrder)

/-- The bar loop of `run_backtest`: per bar, first fill open orders (outside
`try`), then invoke the callback; on an exception, `break` out of the loop
with the state as it stands; otherwise process the returned orders, take a
snapshot and continue.  The second component records whether the replay was
aborted. -/
def runLoop (cfg : EngConfig) (cb : StratCB) : List Candle → EngState →
    EngState × Bool
  | [], s => (s, false)
  | c :: rest, s =>
    let s1 := processOpenOrders cfg c s
    match cb c s1 with
    | Except.error _ => (s1, true)
    | Except.ok newOrders =>
      let s2 := newOrders.foldl (processOrderEng cfg c) s1
      let s3 := updateAccountSnapshot cfg c.timestamp s2
      runLoop cfg cb rest s3

/-- The performance metrics computed from the equity series (the fields of
`_calculate_performance_metrics` that exact rational arithmetic expresses;
annual_return and sharpe_ratio need real exponentiation and square roots
and are read by no claim). -/
structure BTMetrics where
  initialCapital : ℚ
  finalEquity : ℚ
  totalReturn : ℚ
  maxDrawdown : ℚ
  totalTrades : ℕ
  deriving DecidableEq

/-- Reduce the equity series to metrics; an empty curve yields none (the
source returns an empty dict). -/
def calcMetrics (orders : List BTOrder) (equity : List ℚ) : Option BTMetrics :=
  match equity with
  | [] => none
  | e0 :: rest =>
    some { initialCapital := e0,
           finalEquity := rest.getLastD e0,
           totalReturn := (rest.getLastD e0 - e0) / e0,
           maxDrawdown := maxDrawdown (e0 :: rest),
           totalTrades := orders.length }

/-- What `run_backtest` returns: the simulated orders, the equity curve and
the metrics. -/
structure BacktestOutput where
  orders : List BTOrder
  equityCurve : List (ℕ × ℚ)
  metrics : Option BTMetrics
  deriving DecidableEq

/-- `run_backtest`: initial snapshot at the start time, the bar loop over the
merged candle sequence, then the metrics reduction — run even when the loop
was aborted by a strategy exception. -/
def runBacktest (cfg : EngConfig) (cb : StratCB) (startTime : ℕ)
    (candles : List Candle) (s0 : EngState) : BacktestOutput :=
  let sInit := updateAccountSnapshot cfg startTime s0
  let sf := (runLoop cfg cb candles sInit).1
  { orders := sf.filledOrders,
    equityCurve := sf.equityCurve,
    metrics := calcMetrics sf.filledOrders (sf.equityCurve.map Prod.snd) }

/-- A non-aborted prefix composes with the rest of the bar list. -/
theorem runLoop_append (cfg : EngConfig) (cb : StratCB) (pre post : List Candle)
    (s : EngState) (h : (runLoop cfg cb pre s).2 = false) :
    runLoop cfg cb (pre ++ post) s = runLoop cfg cb post (runLoop cfg cb pre s).1 := by
  induction pre generalizing s with
  | nil => simp [runLoop]
  | cons c cs ih =>
    simp only [List.cons_append, runLoop] at h ⊢
    cases hcb : cb c (processOpenOrders cfg c s) with
    | error e =>
      rw [hcb] at h
      simp at h
    | ok os =>
      rw [hcb] at h
      dsimp only at h ⊢
      exact ih _ h

/-- C9: when the bar callback raises at bar `c` (after a prefix `pre` that
ran without abort), the loop stops right there: the final state is the one
produced by the pre-callback open-order pass on `c` — no fill, strategy
invocation or snapshot happens for any bar of `post` — and `run_backtest`
still returns, with orders, equity curve and metrics identical to a run
whose bar list ends at the failing bar. -/
theorem run_backtest_abort_on_callback_error (cfg : EngConfig) (cb : StratCB)
    (pre post : List Candle) (c : Candle) (t0 : ℕ) (s0 : EngState) (e : String)
    (hpre : (runLoop cfg cb pre (updateAccountSnapshot cfg t0 s0)).2 = false)
    (herr : cb c (processOpenOrders cfg c
        (runLoop cfg cb pre (updateAccountSnapshot cfg t0 s0)).1) =
      Except.error e) :
    runLoop cfg cb (pre ++ c :: post) (updateAccountSnapshot cfg t0 s0) =
      (processOpenOrders cfg c
        (runLoop cfg cb pre (updateAccountSnapshot cfg t0 s0)).1, true)
    ∧ runBacktest cfg cb t0 (pre ++ c :: post) s0 =
        runBacktest cfg cb t0 (pre ++ [c]) s0 := by
  have habort : ∀ rest : List Candle,
      runLoop cfg cb (c :: rest)
          (runLoop cfg cb pre (updateAccountSnapshot cfg t0 s0)).1 =
        (processOpenOrders cfg c
          (runLoop cfg cb pre (updateAccountSnapshot cfg t0 s0)).1, true) := by
    intro rest
    simp only [runLoop]
    rw [herr]
  constructor
  · rw [runLoop_append cfg cb pre (c :: post) _ hpre, habort post]
  · simp only [runBacktest]
    rw [runLoop_append cfg cb pre (c :: post) _ hpre,
      runLoop_append cfg cb pre [c] _ hpre, habort post, habort []]

/-- A failing strategy callback and a trivial two-bar configuration. -/
def exEngCfg : EngConfig := ⟨0, 0, [], fun _ => true⟩

/-- An empty engine state. -/
def exEngState : EngState := ⟨[], [], [], [], []⟩

/-- First bar of the witness scenario. -/
def exCandle1 : Candle := ⟨"BTC/USDT", 1, 100⟩

/-- Second bar of the witness scenario (never processed). -/
def exCandle2 : Candle := ⟨"BTC/USDT", 2, 110⟩

/-- A strategy callback that raises on every bar. -/
def exFailCB : StratCB := fun _ _ => Except.error "strategy raised"

/-- Witness for C9: with a callback that raises on the first bar, the
two-bar run equals the one-bar run. -/
theorem run_backtest_abort_on_callback_error_witness :
    runLoop exEngCfg exFailCB ([] ++ exCandle1 :: [exCandle2])
        (updateAccountSnapshot exEngCfg 0 exEngState) =
      (processOpenOrders exEngCfg exCandle1
        (runLoop exEngCfg exFailCB [] (updateAccountSnapshot exEngCfg 0 exEngState)).1,
        true)
    ∧ runBacktest exEngCfg exFailCB 0 ([] ++ exCandle1 :: [exCandle2]) exEngState =
        runBacktest exEngCfg exFailCB 0 ([] ++ [exCandle1]) exEngState :=
  run_backtest_abort_on_callback_error exEngCfg exFailCB [] [exCandle2] exCandle1 0
    exEngState "strategy raised" (by rfl) (by rfl)

/-! ### `_process_order` against the imported domain model (C2)

`_process_order` (backtest_engine.py lines 241–332) imports `Order` from
`domain/models/order.py` and `Balance` from `domain/models/account.py`, but
its fill section is written against different classes: it reads
`order.side` (line 275), `order.amount` (line 281) and `order.symbol`
(line 289), which the domain `Order` exposes only under `order.params`;
it calls `order.fill(price=..., filled=..., fee=..., fee_currency=...)`
(lines 284–286), which the `(amount, price, trade_id)` signature of
`Order.fill` rejects; and it assigns `balance.total` (lines 297, 307, 313,
323), which on the domain `Balance` is a read-only derived property.  The
first of these to execute is the `order.side` read, which raises
`AttributeError` — after the early-return guards, before the fee
computation, before `Order.fill` and before any balance update.  The
embedding below follows the call line by line against the imported model,
with each early return explicit and the raising read as the error case. -/

/-- The state a returning `_process_order` call leaves behind: the (possibly
rejected) order and the account balances. -/
structure ProcResult where
  order : Order
  account : Account
  deriving DecidableEq

/-- `_process_order` as it executes against the imported domain `Order` and
`Account`: the risk gate rejects denied orders via `Order.reject`; orders
that are neither OPEN nor PARTIALLY_FILLED return unchanged; a missing
strategy context returns unchanged; and every order that reaches the fill
section hits the `order.side` read (line 275) — an attribute the domain
`Order` does not have — and raises before the fee computation, the
`Order.fill` call and every balance mutation.  `riskOK` is the risk
manager's verdict and `ctxPresent` whether `strategy_contexts` holds the
order's strategy id. -/
def processOrderSrc (riskOK ctxPresent : Bool) (o : Order) (_c : Candle)
    (acct : Account) : Except String ProcResult :=
  if riskOK = false then
    match o.reject "risk rule denied" with
    | Except.ok o' => Except.ok ⟨o', acct⟩
    | Except.error e => Except.error e
  else if o.status ≠ OrderStatus.opened ∧ o.status ≠ OrderStatus.partFilled then
    Except.ok ⟨o, acct⟩
  else if ctxPresent = false then
    Except.ok ⟨o, acct⟩
  else
    Except.error "AttributeError: Order object has no attribute side"

/-- C2 (code bug): the claimed fill updates are unreachable in the source.
Every order that passes the risk gate with status OPEN or PARTIALLY_FILLED
and a present strategy context makes `_process_order` raise at the
`order.side` read — before the execution-price/fee computation, before the
`Order.fill` call and before any balance update (first conjunct) — and
whenever `_process_order` returns at all, the account balances are exactly
as before: no asset is ever debited, credited or freshly created (second
conjunct). -/
theorem backtest_process_order_code_bug :
    (∀ (o : Order) (c : Candle) (acct : Account),
        o.status = OrderStatus.opened ∨ o.status = OrderStatus.partFilled →
        processOrderSrc true true o c acct =
          Except.error "AttributeError: Order object has no attribute side")
    ∧ (∀ (riskOK ctxPresent : Bool) (o : Order) (c : Candle) (acct : Account)
          (r : ProcResult),
        processOrderSrc riskOK ctxPresent o c acct = Except.ok r →
        r.account = acct) := by
  constructor
  · intro o c acct hst
    have h1 : ¬(o.status ≠ OrderStatus.opened ∧ o.status ≠ OrderStatus.partFilled) := by
      rcases hst with h | h <;> simp [h]
    simp [processOrderSrc, h1]
  · intro riskOK ctxPresent o c acct r h
    simp only [processOrderSrc] at h
    split_ifs at h with h1 h2 h3
    · cases hr : o.reject "risk rule denied" with
      | ok o' =>
        rw [hr] at h
        injection h with h
        subst h
        rfl
      | error e => rw [hr] at h; cases h
    · injection h with h; subst h; rfl
    · injection h with h; subst h; rfl

/-- A concrete domain account: 1000 USDT free. -/
def exDomAcct : Account := [("USDT", ⟨"USDT", 1000, 0⟩)]

/-- Witness for the C2 code-bug theorem: the concrete OPEN buy order of the
C4 witness, processed against a 100-close bar with risk approval and a
present context, raises at the `order.side` read; and a call that returns
early (missing context) leaves the 1000-USDT account untouched. -/
theorem backtest_process_order_code_bug_witness :
    processOrderSrc true true exOpenOrder exCandle1 exDomAcct =
      Except.error "AttributeError: Order object has no attribute side"
    ∧ processOrderSrc true false exOpenOrder exCandle1 exDomAcct =
        Except.ok ⟨exOpenOrder, exDomAcct⟩
    ∧ (⟨exOpenOrder, exDomAcct⟩ : ProcResult).account = exDomAcct :=
  ⟨backtest_process_order_code_bug.1 exOpenOrder exCandle1 exDomAcct
      (Or.inl rfl),
   rfl,
   backtest_process_order_code_bug.2 true false exOpenOrder exCandle1 exDomAcct
      ⟨exOpenOrder, exDomAcct⟩ rfl⟩

end LightQuant
